import Mathlib

/-!
Verification of the MMT `cli/mmt/engine.py` training pipeline orchestrator.

The definitions below are a shallow embedding of the Python source:

* `StepDesc` models the `_Inner` step descriptor produced by the
  `EngineBuilder.Step` decorator (`id`, display `name`, `optional`, `hidden`).
* `schedule_iter` models `EngineBuilder.__Schedule.__iter__` (the filtered
  list the returned iterator walks).
* `schedule_init` models `EngineBuilder.__Schedule.__init__`.
* `is_completed` / `step_completed` model the like-named `__Schedule` methods.
* `runSteps` / `runStores` model the `for method in self._schedule` loop of
  `EngineBuilder._build`: per step the loop computes
  `skip = self._schedule.is_completed(method.id)`, invokes the handler, then
  calls `step_completed` (an unconditional append) and `store` (rewriting the
  checkpoint file with the current list).  `runSteps` returns the sequence of
  (step id, skip flag) invocations and the final in-memory completed list;
  `runStores` returns the successive contents written to the checkpoint file.
  The checkpoint file is modelled as holding the stored list itself
  (`json.dump` / `json.load` of a list of strings round-trips).
-/

structure StepDesc where
  id : String
  name : String
  optional : Bool
  hidden : Bool
deriving DecidableEq

/-- `__Schedule.is_completed`: `return step in self._passed_steps`. -/
def is_completed (passed_steps : List String) (step : String) : Bool :=
  decide (step ∈ passed_steps)

/-- `__Schedule.step_completed`: `self._passed_steps.append(step)`. -/
def step_completed (passed_steps : List String) (step : String) : List String :=
  passed_steps ++ [step]

/-- `__Schedule.__iter__`: the iterator walks
`[el for el in self._plan if el.id in self._scheduled_steps or not el.is_optional()]`. -/
def schedule_iter (plan : List StepDesc) (scheduled_steps : List String) : List StepDesc :=
  plan.filter (fun el => decide (el.id ∈ scheduled_steps) || !el.optional)

/-- Python `str` of a list of strings, e.g. `['a', 'b']`. -/
def pyStr (xs : List String) : String :=
  "[" ++ String.intercalate ", " (xs.map (fun s => "\x27" ++ s ++ "\x27")) ++ "]"

structure ScheduleState where
  scheduled_steps : List String
  passed_steps : List String
deriving DecidableEq

/-- `__Schedule.__init__`: with `filtered_steps` given, unknown ids raise
`IllegalArgumentException('Unknown training steps: ' + str(unknown_steps))`;
with `filtered_steps is None`, `self._scheduled_steps = all_steps`. -/
def schedule_init (plan : List StepDesc) (filtered_steps : Option (List String)) :
    Except String ScheduleState :=
  let all_steps := plan.map (·.id)
  match filtered_steps with
  | some fs =>
      let unknown_steps := fs.filter (fun step => decide (step ∉ all_steps))
      if unknown_steps.length > 0 then
        Except.error ("Unknown training steps: " ++ pyStr unknown_steps)
      else
        Except.ok ⟨fs, []⟩
  | none => Except.ok ⟨all_steps, []⟩

/-- The `RUN ALL STEPS` loop of `EngineBuilder._build`: for each step of the
iterated schedule, compute `skip = is_completed(method.id)`, invoke the
handler (recorded as the pair `(method.id, skip)`; handlers themselves are
out-of-scope collaborators and always return), then `step_completed` and
`store`.  Returns (invocations, final `_passed_steps`). -/
def runSteps : List StepDesc → List String → List (String × Bool) × List String
  | [], passed_steps => ([], passed_steps)
  | method :: rest, passed_steps =>
      let skip := is_completed passed_steps method.id
      let passed1 := step_completed passed_steps method.id
      let r := runSteps rest passed1
      ((method.id, skip) :: r.1, r.2)

/-- The successive checkpoint-file contents written by `store` inside the
`_build` loop (one write after every completed step). -/
def runStores : List StepDesc → List String → List (List String)
  | [], _ => []
  | method :: rest, passed_steps =>
      let passed1 := step_completed passed_steps method.id
      passed1 :: runStores rest passed1

/-- `EngineBuilder._build_schedule`, with the metadata each `@Step` decorator
attaches (`id` is `f.__name__.strip('_')`; `optional` defaults to `True`,
`hidden` to `False`; `_write_config` is declared `optional=False, hidden=True`). -/
def build_schedule : List StepDesc :=
  [⟨"clean_tms", "Corpora cleaning", true, false⟩,
   ⟨"preprocess", "Corpora pre-processing", true, false⟩,
   ⟨"train_aligner", "Aligner training", true, false⟩,
   ⟨"write_config", "Writing config", false, true⟩]

-- ~~~~~~~~~~ helper lemmas about the run loop ~~~~~~~~~~

theorem runSteps_cons (m : StepDesc) (rest : List StepDesc) (passed : List String) :
    runSteps (m :: rest) passed
      = ((m.id, is_completed passed m.id) :: (runSteps rest (step_completed passed m.id)).1,
         (runSteps rest (step_completed passed m.id)).2) := rfl

theorem runStores_cons (m : StepDesc) (rest : List StepDesc) (passed : List String) :
    runStores (m :: rest) passed
      = step_completed passed m.id :: runStores rest (step_completed passed m.id) := rfl

theorem runSteps_snd (steps : List StepDesc) (passed : List String) :
    (runSteps steps passed).2 = passed ++ steps.map (·.id) := by
  induction steps generalizing passed with
  | nil => simp [runSteps]
  | cons s rest ih =>
      simp [runSteps_cons, step_completed, ih, List.append_assoc]

theorem runSteps_fst (steps : List StepDesc) (loaded extra : List String)
    (hnd : (steps.map (·.id)).Nodup) (hdisj : ∀ s ∈ steps, s.id ∉ extra) :
    (runSteps steps (loaded ++ extra)).1
      = steps.map (fun s => (s.id, decide (s.id ∈ loaded))) := by
  induction steps generalizing extra with
  | nil => simp [runSteps]
  | cons s rest ih =>
      simp only [List.map_cons, List.nodup_cons] at hnd
      have hs : s.id ∉ extra := hdisj s (by simp)
      have hmem : is_completed (loaded ++ extra) s.id = decide (s.id ∈ loaded) := by
        simp [is_completed, List.mem_append, hs]
      have hrec : (runSteps rest (step_completed (loaded ++ extra) s.id)).1
          = rest.map (fun t => (t.id, decide (t.id ∈ loaded))) := by
        have heq : step_completed (loaded ++ extra) s.id = loaded ++ (extra ++ [s.id]) := by
          simp [step_completed, List.append_assoc]
        rw [heq]
        refine ih (extra ++ [s.id]) hnd.2 ?_
        intro t ht
        simp only [List.mem_append, List.mem_singleton]
        rintro (h | h)
        · exact hdisj t (by simp [ht]) h
        · exact hnd.1 (h ▸ List.mem_map_of_mem (·.id) ht)
      simp [runSteps_cons, hmem, hrec]

theorem runSteps_fst_all_skip (steps : List StepDesc) (passed : List String)
    (h : ∀ s ∈ steps, s.id ∈ passed) :
    ∀ p ∈ (runSteps steps passed).1, p.2 = true := by
  induction steps generalizing passed with
  | nil => simp [runSteps]
  | cons s rest ih =>
      intro p hp
      rw [runSteps_cons] at hp
      rcases List.mem_cons.mp hp with hp1 | hp1
      · subst hp1
        simp [is_completed, h s (by simp)]
      · exact ih (step_completed passed s.id)
          (fun t ht => by simp [step_completed, h t (by simp [ht])]) p hp1

theorem runStores_eq (steps : List StepDesc) (passed : List String) :
    runStores steps passed
      = (List.range steps.length).map
          (fun k => passed ++ (steps.take (k + 1)).map (·.id)) := by
  induction steps generalizing passed with
  | nil => simp [runStores]
  | cons s rest ih =>
      rw [runStores_cons, ih]
      simp [List.range_succ_eq_map, List.map_map, Function.comp, step_completed,
        List.take_succ_cons, List.append_assoc]

theorem runStores_chain (steps : List StepDesc) (passed : List String) :
    List.Chain' (· <+: ·) (passed :: runStores steps passed) := by
  induction steps generalizing passed with
  | nil => simp [runStores]
  | cons s rest ih =>
      simp only [runStores]
      exact List.Chain'.cons (by exact ⟨[s.id], rfl⟩) (ih (step_completed passed s.id))

-- ~~~~~~~~~~ C1 ~~~~~~~~~~

/-- C1: iterating the Schedule yields exactly the steps whose id is in the
scheduled set or whose optional flag is false, as a sublist of the plan (the
original order); in particular every non-optional step is always yielded. -/
theorem schedule_iter_spec (plan : List StepDesc) (scheduled_steps : List String) :
    (schedule_iter plan scheduled_steps).Sublist plan
    ∧ (∀ s, s ∈ schedule_iter plan scheduled_steps
        ↔ s ∈ plan ∧ (s.id ∈ scheduled_steps ∨ s.optional = false))
    ∧ (∀ s ∈ plan, s.optional = false → s ∈ schedule_iter plan scheduled_steps) := by
  refine ⟨List.filter_sublist plan, fun s => ?_, fun s hs hopt => ?_⟩
  · simp [schedule_iter, List.mem_filter, Bool.or_eq_true, Bool.not_eq_true']
  · simp [schedule_iter, List.mem_filter, Bool.or_eq_true, Bool.not_eq_true', hs, hopt]

-- ~~~~~~~~~~ C2 ~~~~~~~~~~

/-- C2: in a resumed run (`_build(resume=True)` loads `loaded` into
`_passed_steps` and then runs the iterated schedule), provided the iterated
step ids are distinct (true of the actual plan), every step whose id is in the
loaded checkpoint is invoked with `skip=true` and every other step with
`skip=false`: skip is exactly membership in the loaded completed-steps list. -/
theorem resumed_run_skip_spec (plan : List StepDesc) (scheduled_steps loaded : List String)
    (hnd : ((schedule_iter plan scheduled_steps).map (·.id)).Nodup) :
    (runSteps (schedule_iter plan scheduled_steps) loaded).1
      = (schedule_iter plan scheduled_steps).map
          (fun s => (s.id, decide (s.id ∈ loaded))) := by
  have h := runSteps_fst (schedule_iter plan scheduled_steps) loaded [] hnd (by simp)
  simpa using h

/-- Witness for C2: the actual four-step plan of `_build_schedule`, resumed
with a checkpoint listing only `clean_tms`. -/
theorem resumed_run_skip_spec_witness :
    (runSteps (schedule_iter build_schedule (build_schedule.map (·.id))) ["clean_tms"]).1
      = (schedule_iter build_schedule (build_schedule.map (·.id))).map
          (fun s => (s.id, decide (s.id ∈ (["clean_tms"] : List String)))) :=
  resumed_run_skip_spec build_schedule (build_schedule.map (·.id)) ["clean_tms"] (by decide)

-- ~~~~~~~~~~ C3 ~~~~~~~~~~

/-- C3: in a fresh run (`_passed_steps` starts empty), after each handler
returns the step id is appended and the checkpoint rewritten: the k-th stored
checkpoint content is exactly the first k step ids; after N steps the
final in-memory list (and hence the last stored checkpoint) is exactly the N
step ids in completion order; and the successive in-memory lists only grow
(each stored list is a prefix of the next, starting from the empty baseline
that `_build` stores before the loop on a fresh build). -/
theorem fresh_run_checkpoint_spec (steps : List StepDesc) :
    (runSteps steps []).2 = steps.map (·.id)
    ∧ runStores steps [] = (List.range steps.length).map
        (fun k => (steps.take (k + 1)).map (·.id))
    ∧ List.Chain' (· <+: ·) ([] :: runStores steps []) := by
  refine ⟨by simpa using runSteps_snd steps [], ?_, runStores_chain steps []⟩
  simpa using runStores_eq steps []

-- ~~~~~~~~~~ C9 ~~~~~~~~~~

/-- C9: `step_completed` appends unconditionally (no duplicate check), so a
resumed run whose loaded checkpoint already lists every step id appends each
id a second time: every step is invoked with `skip=true`, the final stored
list is the id list twice over, each id occurring exactly twice when the plan
ids are distinct; membership-based `is_completed` is unaffected by the
duplication. -/
theorem completed_resume_duplicates_spec (steps : List StepDesc) :
    (runSteps steps (steps.map (·.id))).2 = steps.map (·.id) ++ steps.map (·.id)
    ∧ (∀ p ∈ (runSteps steps (steps.map (·.id))).1, p.2 = true)
    ∧ ((steps.map (·.id)).Nodup →
        ∀ s ∈ steps, ((runSteps steps (steps.map (·.id))).2).count s.id = 2)
    ∧ (∀ (l : List String) (x : String), is_completed (l ++ l) x = is_completed l x) := by
  refine ⟨runSteps_snd steps (steps.map (·.id)), ?_, ?_, ?_⟩
  · exact runSteps_fst_all_skip steps (steps.map (·.id))
      (fun s hs => List.mem_map_of_mem (·.id) hs)
  · intro hnd s hs
    rw [runSteps_snd steps (steps.map (·.id)), List.count_append]
    have h1 : (steps.map (·.id)).count s.id = 1 :=
      List.count_eq_one_of_mem hnd (List.mem_map_of_mem (·.id) hs)
    omega
  · intro l x
    simp [is_completed]

-- ~~~~~~~~~~ C4 ~~~~~~~~~~

/-- The outcome of opening and `json.load`-ing the checkpoint file in
`__Schedule.load`: the file may be missing/unreadable (`open`/read raises
`IOError`), readable but not valid JSON (`json.load` raises `ValueError`),
or parse to a list of step ids. -/
inductive CheckpointRead where
  | ioError
  | valueError
  | parsed (steps : List String)
deriving DecidableEq

inductive PyRaised where
  | valueError
deriving DecidableEq

/-- `__Schedule.load`: `try: self._passed_steps = json.load(f)
except IOError: self._passed_steps = []`.  Only `IOError` is caught; a
`ValueError` from `json.load` on unparsable content propagates. -/
def schedule_load (r : CheckpointRead) : Except PyRaised (List String) :=
  match r with
  | .ioError => Except.ok []
  | .valueError => Except.error PyRaised.valueError
  | .parsed steps => Except.ok steps

/-- C4 counterexample: an unparsable checkpoint file does not leave the
completed-steps list empty — `json.load`'s `ValueError` is not caught by
`except IOError`, so the load fails instead of degrading to a fresh start. -/
theorem unparsable_checkpoint_fails :
    schedule_load CheckpointRead.valueError = Except.error PyRaised.valueError
    ∧ schedule_load CheckpointRead.valueError ≠ Except.ok [] := by
  refine ⟨rfl, ?_⟩
  simp [schedule_load]

/-- C4 amended: only a missing/unreadable checkpoint file (`IOError`) leaves
the completed-steps list empty, making the resumed run behave as fresh: with
an empty loaded list every membership test is false and (for distinct step
ids) every step is invoked with `skip=false`.  An unparsable file instead
raises `ValueError` and fails the load. -/
theorem missing_checkpoint_fresh_spec :
    schedule_load CheckpointRead.ioError = Except.ok []
    ∧ schedule_load CheckpointRead.valueError = Except.error PyRaised.valueError
    ∧ (∀ step, is_completed [] step = false)
    ∧ (∀ steps : List StepDesc, (steps.map (·.id)).Nodup →
        (runSteps steps []).1 = steps.map (fun s => (s.id, false))) := by
  refine ⟨rfl, rfl, fun step => by simp [is_completed], fun steps hnd => ?_⟩
  have h := runSteps_fst steps [] [] hnd (by simp)
  simpa using h

-- ~~~~~~~~~~ C5 ~~~~~~~~~~

/-- Python `del kwargs[key]` on a dict (modelled as an association list with
distinct keys): removes the key, raising `KeyError` (`none`) if absent. -/
def pyDictDel (kwargs : List (String × α)) (key : String) : Option (List (String × α)) :=
  if key ∈ kwargs.map (·.1) then
    some (kwargs.filter (fun p => decide (p.1 ≠ key)))
  else
    none

/-- `Step.__call__._Inner.__call__`: `names` is `inspect.getargspec(self._f)[0]`
(the handler's declared parameter names); each of `delete_on_exit`, `log`,
`skip` is deleted from `kwargs` when not declared; the positional arguments
pass through untouched and what remains of `kwargs` is passed to the handler. -/
def inner_call (names : List String) (kwargs : List (String × α)) :
    Option (List (String × α)) := do
  let k1 ← if "delete_on_exit" ∈ names then some kwargs else pyDictDel kwargs "delete_on_exit"
  let k2 ← if "log" ∈ names then some k1 else pyDictDel k1 "log"
  let k3 ← if "skip" ∈ names then some k2 else pyDictDel k2 "skip"
  some k3

/-- C5: for the keyword arguments `_build` always supplies
(`skip`, `log`, `delete_on_exit`), the wrapper passes the handler exactly
those that appear among the handler's declared parameter names — the
surviving kwargs are the supplied ones filtered by declared membership, so an
undeclared one of the three is never passed. -/
theorem inner_call_filters_kwargs {α : Type} (sv lv dv : α) (names : List String) :
    inner_call names [("skip", sv), ("log", lv), ("delete_on_exit", dv)]
      = some (([("skip", sv), ("log", lv), ("delete_on_exit", dv)] : List (String × α)).filter
          (fun p => decide (p.1 ∈ names))) := by
  by_cases hd : "delete_on_exit" ∈ names <;>
    by_cases hl : "log" ∈ names <;>
      by_cases hs : "skip" ∈ names <;>
        simp [inner_call, pyDictDel, hd, hl, hs]

-- ~~~~~~~~~~ C6 ~~~~~~~~~~

def _GB : Nat := 1024 * 1024 * 1024

/-- The per-GPU RAM loop of `EngineBuilder._check_constraints`: raise on the
first GPU whose RAM is below `recommended_gpu_ram = 8 * _GB`; `%.f` on the
Python-2 integer division `gpus_ram / _GB` prints the floor value. -/
def check_gpu_ram : List (Nat × Nat) → Except String Unit
  | [] => Except.ok ()
  | (gpu, gpus_ram) :: rest =>
      if gpus_ram < 8 * _GB then
        Except.error ("The RAM of GPU " ++ toString gpu ++ " is only "
          ++ toString (gpus_ram / _GB) ++ "G. More than " ++ toString (8 * _GB / _GB)
          ++ "G of RAM recommended for each GPU.")
      else
        check_gpu_ram rest

/-- `EngineBuilder._check_constraints`: `gpus` is `nvidia_smi.list_gpus()`
paired with `nvidia_smi.get_ram(gpu)`; an empty list or a GPU below the
recommended RAM raises `HWConstraintViolated(cause)` (modelled as
`Except.error cause`). -/
def _check_constraints (gpus : List (Nat × Nat)) : Except String Unit :=
  if gpus.length = 0 then
    Except.error "No GPU for Neural engine training, the process will take very long time to complete."
  else
    check_gpu_ram gpus

structure BuildResult where
  warnings : List String
  invocations : List (String × Bool)
  finalCheckpoint : List String
deriving DecidableEq

inductive RunError where
  | illegalArgument (msg : String)
  | corpusNotFound
deriving DecidableEq

/-- `EngineBuilder.__init__` followed by `_build(resume)`: the Schedule is
constructed first (`IllegalArgumentException` for unknown requested steps
escapes before anything runs); `_build` then loads the checkpoint on resume
(its content `loaded`) or stores the empty baseline on a fresh build, fails
with `CorpusNotFoundInFolderException` when no corpora are found, runs
`_check_constraints` catching `HWConstraintViolated` and recording its cause
as a printed warning, and finally runs the iterated schedule.  Step handlers
are out-of-scope collaborators modelled as always succeeding; logging and
filesystem side effects are not modelled. -/
def builder_build (plan : List StepDesc) (steps : Option (List String)) (resume : Bool)
    (loaded : List String) (corporaCount : Nat) (gpus : List (Nat × Nat)) :
    Except RunError BuildResult :=
  match schedule_init plan steps with
  | Except.error msg => Except.error (RunError.illegalArgument msg)
  | Except.ok st =>
      let passed0 := if resume then loaded else []
      if corporaCount = 0 then
        Except.error RunError.corpusNotFound
      else
        let warnings := match _check_constraints gpus with
          | Except.error cause => [cause]
          | Except.ok _ => []
        let r := runSteps (schedule_iter plan st.scheduled_steps) passed0
        Except.ok ⟨warnings, r.1, r.2⟩

theorem check_gpu_ram_error_iff (gpus : List (Nat × Nat)) :
    (∃ cause, check_gpu_ram gpus = Except.error cause) ↔ ∃ g ∈ gpus, g.2 < 8 * _GB := by
  induction gpus with
  | nil => simp [check_gpu_ram]
  | cons g rest ih =>
      obtain ⟨a, b⟩ := g
      by_cases h : b < 8 * _GB
      · simp [check_gpu_ram, h]
      · simp [check_gpu_ram, h, ih]

/-- C6: `_check_constraints` raises `HWConstraintViolated` (with a
human-readable cause) exactly when no GPU is present or some GPU has RAM
below 8 GiB; with zero GPUs the cause is the no-GPU message; and the runner
treats the condition as advisory — a build with zero GPUs (and at least one
corpus) still completes successfully, recording exactly that one warning. -/
theorem hardware_constraints_spec (gpus : List (Nat × Nat)) (plan : List StepDesc)
    (resume : Bool) (loaded : List String) (c : Nat) :
    ((∃ cause, _check_constraints gpus = Except.error cause)
        ↔ gpus = [] ∨ ∃ g ∈ gpus, g.2 < 8 * _GB)
    ∧ _check_constraints []
        = Except.error "No GPU for Neural engine training, the process will take very long time to complete."
    ∧ (∃ r, builder_build plan none resume loaded (c + 1) [] = Except.ok r
        ∧ r.warnings
            = ["No GPU for Neural engine training, the process will take very long time to complete."]) := by
  refine ⟨?_, rfl, ?_⟩
  · by_cases hg : gpus = []
    · subst hg
      simp [_check_constraints]
    · have hlen : ¬ gpus.length = 0 := by simpa [List.length_eq_zero] using hg
      rw [_check_constraints, if_neg hlen]
      simp [check_gpu_ram_error_iff, hg]
  · refine ⟨⟨["No GPU for Neural engine training, the process will take very long time to complete."],
      (runSteps (schedule_iter plan (plan.map (·.id))) (if resume then loaded else [])).1,
      (runSteps (schedule_iter plan (plan.map (·.id))) (if resume then loaded else [])).2⟩, ?_, rfl⟩
    simp [builder_build, schedule_init, _check_constraints]

-- ~~~~~~~~~~ C7 ~~~~~~~~~~

/-- C7: constructing a Schedule with a requested subset containing ids not in
the full step list fails with `IllegalArgumentException` naming exactly the
unknown ids (each named id was requested and is not a known step id), and the
whole build fails before any step executes (the result carries no
invocations); with no subset supplied, the scheduled set is the full step
list. -/
theorem schedule_init_spec (plan : List StepDesc) (fs : List String) :
    schedule_init plan none = Except.ok ⟨plan.map (·.id), []⟩
    ∧ ((∃ s ∈ fs, s ∉ plan.map (·.id)) →
        schedule_init plan (some fs)
          = Except.error ("Unknown training steps: "
              ++ pyStr (fs.filter (fun step => decide (step ∉ plan.map (·.id)))))
        ∧ (∀ u ∈ fs.filter (fun step => decide (step ∉ plan.map (·.id))),
            u ∈ fs ∧ u ∉ plan.map (·.id))
        ∧ (∀ (resume : Bool) (loaded : List String) (corporaCount : Nat)
            (gpus : List (Nat × Nat)),
            builder_build plan (some fs) resume loaded corporaCount gpus
              = Except.error (RunError.illegalArgument ("Unknown training steps: "
                  ++ pyStr (fs.filter (fun step => decide (step ∉ plan.map (·.id)))))))) := by
  refine ⟨rfl, fun hunk => ?_⟩
  obtain ⟨s, hs, hsn⟩ := hunk
  have hmem : s ∈ fs.filter (fun step => decide (step ∉ plan.map (·.id))) :=
    List.mem_filter.mpr ⟨hs, by simpa using hsn⟩
  have hlen : (fs.filter (fun step => decide (step ∉ plan.map (·.id)))).length > 0 :=
    List.length_pos.mpr (List.ne_nil_of_mem hmem)
  have herr : schedule_init plan (some fs)
      = Except.error ("Unknown training steps: "
          ++ pyStr (fs.filter (fun step => decide (step ∉ plan.map (·.id))))) := by
    simp only [schedule_init]
    rw [if_pos hlen]
  refine ⟨herr, fun u hu => ?_, fun resume loaded corporaCount gpus => ?_⟩
  · have := List.mem_filter.mp hu
    exact ⟨this.1, by simpa using this.2⟩
  · simp only [builder_build, herr]

-- ~~~~~~~~~~ C8 ~~~~~~~~~~

/-- `EngineBuilder._pretty_print_time` on whole-second input (the source first
truncates the float elapsed time with `int(elapsed)`): strict `>` threshold
per unit, subtracting each emitted unit from the remainder, always emitting
the seconds part, `' '.join(parts)` at the end. -/
def _pretty_print_time (elapsed : Nat) : String :=
  let r1 :=
    if elapsed > 86400 then
      let d := elapsed / 86400
      (([] : List String) ++ [toString d ++ "d"], elapsed - d * 86400)
    else ([], elapsed)
  let r2 :=
    if r1.2 > 3600 then
      let h := r1.2 / 3600
      (r1.1 ++ [toString h ++ "h"], r1.2 - h * 3600)
    else r1
  let r3 :=
    if r2.2 > 60 then
      let m := r2.2 / 60
      (r2.1 ++ [toString m ++ "m"], r2.2 - m * 60)
    else r2
  String.intercalate " " (r3.1 ++ [toString r3.2 ++ "s"])

/-- The remainder after the days unit, per the spec rule (days emitted only
when the elapsed seconds strictly exceed 86400). -/
def daysRemainder (e : Nat) : Nat := if 86400 < e then e % 86400 else e

/-- The remainder after the hours unit, per the spec rule. -/
def hoursRemainder (e : Nat) : Nat :=
  if 3600 < daysRemainder e then daysRemainder e % 3600 else daysRemainder e

/-- The remainder after the minutes unit (the always-emitted seconds part). -/
def minutesRemainder (e : Nat) : Nat :=
  if 60 < hoursRemainder e then hoursRemainder e % 60 else hoursRemainder e

/-- The spec's formatting rule (§4.4), written from its words: emit `Nd` only
when elapsed strictly exceeds 86400s, `Nh` only when the remainder strictly
exceeds 3600s, `Nm` only when the remainder strictly exceeds 60s, always emit
the remaining seconds, each emitted unit reducing the remainder. -/
def prettyTimeSpec (e : Nat) : String :=
  String.intercalate " "
    ((if 86400 < e then [toString (e / 86400) ++ "d"] else []) ++
     (if 3600 < daysRemainder e then [toString (daysRemainder e / 3600) ++ "h"] else []) ++
     (if 60 < hoursRemainder e then [toString (hoursRemainder e / 60) ++ "m"] else []) ++
     [toString (minutesRemainder e) ++ "s"])

/-- C8 counterexample: the claim's example `90000 → "1d 1h 0m 0s"` is wrong:
after the day is removed the remainder is exactly 3600, which does not
strictly exceed 3600, so no hours unit is emitted and the code prints
`"1d 60m 0s"`. -/
theorem pretty_print_time_90000 :
    _pretty_print_time 90000 = "1d 60m 0s"
    ∧ _pretty_print_time 90000 ≠ "1d 1h 0m 0s" := by
  refine ⟨by decide, by decide⟩

/-- C8 amended: the formatter follows the per-unit strict-greater-than rule
(equal to the rule spelled out from the spec's words in `prettyTimeSpec`),
and on the examples: 45 → "45s", 125 → "2m 5s", 3725 → "1h 2m 5s", while
90000 → "1d 60m 0s" (not "1d 1h 0m 0s": the post-day remainder 3600 is not
strictly greater than 3600, so no hours unit appears). -/
theorem pretty_print_time_spec :
    (∀ e, _pretty_print_time e = prettyTimeSpec e)
    ∧ _pretty_print_time 45 = "45s"
    ∧ _pretty_print_time 125 = "2m 5s"
    ∧ _pretty_print_time 3725 = "1h 2m 5s"
    ∧ _pretty_print_time 90000 = "1d 60m 0s"
    ∧ _pretty_print_time 60 = "60s"
    ∧ _pretty_print_time 3600 = "60m 0s"
    ∧ _pretty_print_time 86400 = "24h 0s" := by
  refine ⟨?_, by decide, by decide, by decide, by decide, by decide, by decide, by decide⟩
  intro e
  unfold _pretty_print_time prettyTimeSpec minutesRemainder hoursRemainder daysRemainder
  have hd : e - e / 86400 * 86400 = e % 86400 := by omega
  by_cases h1 : 86400 < e
  · simp only [gt_iff_lt, if_pos h1, hd]
    by_cases h2 : 3600 < e % 86400
    · have hh : e % 86400 - e % 86400 / 3600 * 3600 = e % 86400 % 3600 := by omega
      simp only [if_pos h2, hh]
      by_cases h3 : 60 < e % 86400 % 3600
      · have hm : e % 86400 % 3600 - e % 86400 % 3600 / 60 * 60 = e % 86400 % 3600 % 60 := by
          omega
        simp [if_pos h3, hm]
      · simp [if_neg h3]
    · simp only [if_neg h2]
      by_cases h3 : 60 < e % 86400
      · have hm : e % 86400 - e % 86400 / 60 * 60 = e % 86400 % 60 := by omega
        simp [if_pos h3, hm]
      · simp [if_neg h3]
  · simp only [gt_iff_lt, if_neg h1]
    by_cases h2 : 3600 < e
    · have hh : e - e / 3600 * 3600 = e % 3600 := by omega
      simp only [if_pos h2, hh]
      by_cases h3 : 60 < e % 3600
      · have hm : e % 3600 - e % 3600 / 60 * 60 = e % 3600 % 60 := by omega
        simp [if_pos h3, hm]
      · simp [if_neg h3]
    · simp only [if_neg h2]
      by_cases h3 : 60 < e
      · have hm : e - e / 60 * 60 = e % 60 := by omega
        simp [if_pos h3, hm]
      · simp [if_neg h3]

-- ~~~~~~~~~~ C10 ~~~~~~~~~~

inductive PyError where
  | illegalArgument (msg : String)
  | otherException
deriving DecidableEq

structure EngineData where
  name : String
  languages : List (String × String)
deriving DecidableEq

/-- `Engine._get_config_path`: `os.path.join(cli.ENGINES_DIR, name, 'engine.xconf')`. -/
def engineConfigPath (enginesDir name : String) : String :=
  enginesDir ++ "/" ++ name ++ "/engine.xconf"

/-- `Engine.load`: the name is rejected when it contains `os.sep` (`'/'` on
this platform) before any filesystem access; then the config path is checked
with `os.path.isfile` (the filesystem is modelled by the oracle `isfile`) and
a missing file raises `IllegalArgumentException`; finally the configuration
XML is parsed for the language pairs (modelled by the oracle
`parseLanguages`; a `minidom`/attribute failure there raises some other
Python exception) and an `Engine` is returned. -/
def engine_load (isfile : String → Bool)
    (parseLanguages : String → Option (List (String × String)))
    (enginesDir name : String) : Except PyError EngineData :=
  if name.contains (Char.ofNat 47) then
    Except.error (PyError.illegalArgument ("Invalid engine name: \x22" ++ name ++ "\x22"))
  else
    let config_path := engineConfigPath enginesDir name
    if isfile config_path then
      match parseLanguages config_path with
      | some languages => Except.ok ⟨name, languages⟩
      | none => Except.error PyError.otherException
    else
      Except.error (PyError.illegalArgument ("Engine \x27" ++ name ++ "\x27 not found"))

/-- C10: a name containing the path separator is rejected with
`IllegalArgumentException` independently of the filesystem (before any
filesystem access); a separator-free name whose config file is missing is
rejected with `IllegalArgumentException`; and an `Engine` is returned only
for a separator-free name whose config file exists. -/
theorem engine_load_spec (isfile : String → Bool)
    (parseLanguages : String → Option (List (String × String)))
    (enginesDir name : String) :
    (name.contains (Char.ofNat 47) = true →
      engine_load isfile parseLanguages enginesDir name
        = Except.error (PyError.illegalArgument ("Invalid engine name: \x22" ++ name ++ "\x22"))
      ∧ (∀ (isfile2 : String → Bool) (parse2 : String → Option (List (String × String))),
          engine_load isfile2 parse2 enginesDir name
            = engine_load isfile parseLanguages enginesDir name))
    ∧ ((name.contains (Char.ofNat 47) = false
        ∧ isfile (engineConfigPath enginesDir name) = false) →
      engine_load isfile parseLanguages enginesDir name
        = Except.error (PyError.illegalArgument ("Engine \x27" ++ name ++ "\x27 not found")))
    ∧ (∀ e, engine_load isfile parseLanguages enginesDir name = Except.ok e →
        name.contains (Char.ofNat 47) = false
        ∧ isfile (engineConfigPath enginesDir name) = true) := by
  refine ⟨fun hsep => ⟨?_, fun isfile2 parse2 => ?_⟩, fun hmiss => ?_, fun e hok => ?_⟩
  · simp [engine_load, hsep]
  · simp [engine_load, hsep]
  · simp [engine_load, hmiss.1, hmiss.2]
  · by_cases hsep : name.contains (Char.ofNat 47)
    · simp [engine_load, hsep] at hok
    · by_cases hfile : isfile (engineConfigPath enginesDir name)
      · exact ⟨by simp [hsep], hfile⟩
      · simp only [engine_load, Bool.not_eq_true] at hok
        rw [if_neg (by simp [hsep]), if_neg (by simp [hfile])] at hok
        exact absurd hok (by simp)
